import Mathlib

/-!
Verification development for the chunked search-command protocol of this
repository (splunklib/searchcommands). The Python source is shallowly
embedded: strings become `List Char`, fallible operations return `Option`
or `Except`, and the stateful handshake and record-writer code become
explicit state-passing functions. Each definition is translated from the
corresponding source function, named after it where Lean allows.
-/

namespace SplunkSDK

/-- Convert a Lean string literal to the `List Char` representation used
throughout this development for Python strings. -/
def toChars (s : String) : List Char := s.data

/-! ## Record codec: multi-value escaping
Source: `SearchCommand._encode_list` and `SearchCommand._decode_list` in
src/splunklib/searchcommands/search_command.py. -/

/-- Python values that can appear as elements of a multi-value field, as
handled by `to_string` inside `SearchCommand._encode_list`. -/
inductive PyVal where
  | pystr (s : List Char)
  | pybool (b : Bool)
  | pyint (n : Int)
deriving DecidableEq, Repr

/-- Embeds `to_string` from `SearchCommand._encode_list`: booleans become
`t`/`f`, strings and numbers become their text form. -/
def to_string : PyVal → List Char
  | .pystr s => s
  | .pybool b => if b then toChars "t" else toChars "f"
  | .pyint n => (toString n).data

/-- Embeds Python `item.replace(<dollar>, <dollar><dollar>)` used by
`SearchCommand._encode_list`: every literal dollar sign is doubled. -/
def escDollar : List Char → List Char
  | [] => []
  | c :: t => if c = '$' then '$' :: '$' :: escDollar t else c :: escDollar t

/-- Embeds `SearchCommand._encode_list`. Returns the pair
(base column value, companion column value); `none` models Python `None`.
A sequence of length 0 yields `(None, None)`; length 1 yields the scalar
and no companion; otherwise the base column is the newline-join of the
values and the companion wraps each escaped value in dollar delimiters
with a semicolon between consecutive elements. -/
def encode_list (value : List PyVal) : Option (List Char) × Option (List Char) :=
  match value with
  | [] => (none, none)
  | [v] => (some (to_string v), none)
  | _ =>
    let strs := value.map to_string
    (some (List.intercalate ['\n'] strs),
     some (['$'] ++ List.intercalate (toChars "$;$") (strs.map escDollar) ++ ['$']))

/-- Embeds the scanning loop of `SearchCommand._decode_list`: the state is
the remaining input, the `in_value` flag, the value accumulated so far and
the list of completed values. Mirrors the Python `while` loop exactly,
including the fall-through `return l` that keeps the completed values when
the input ends inside an unterminated element. -/
def decodeLoop : List Char → Bool → List Char → List (List Char) → Option (List (List Char))
  | [], _, _, acc => some acc
  | c :: rest, false, value, acc =>
    if c = '$' then decodeLoop rest true value acc
    else if c = ';' then decodeLoop rest false value acc
    else none
  | [c], true, value, acc =>
    if c = '$' then decodeLoop [] false [] (acc ++ [value])
    else decodeLoop [] true (value ++ [c]) acc
  | c :: d :: rest2, true, value, acc =>
    if c = '$' then
      if d = '$' then decodeLoop rest2 true (value ++ ['$']) acc
      else decodeLoop (d :: rest2) false [] (acc ++ [value])
    else decodeLoop (d :: rest2) true (value ++ [c]) acc

/-- Embeds `SearchCommand._decode_list`: an empty companion decodes to
Python `None`; otherwise the scanning loop runs from the initial state. -/
def decodeList (mv : List Char) : Option (List (List Char)) :=
  if mv = [] then none else decodeLoop mv false [] []

/-! ### Step lemmas for the decoding loop -/

theorem decodeLoop_nil (b : Bool) (v : List Char) (acc : List (List Char)) :
    decodeLoop [] b v acc = some acc := rfl

theorem decodeLoop_openStep (rest : List Char) (v : List Char) (acc : List (List Char)) :
    decodeLoop ('$' :: rest) false v acc = decodeLoop rest true v acc := by
  cases rest with
  | nil => simp [decodeLoop]
  | cons d t => simp [decodeLoop]

theorem decodeLoop_sep (rest : List Char) (v : List Char) (acc : List (List Char)) :
    decodeLoop (';' :: rest) false v acc = decodeLoop rest false v acc := by
  cases rest with
  | nil => simp [decodeLoop]
  | cons d t => simp [decodeLoop]

theorem decodeLoop_stray (c : Char) (rest : List Char) (v : List Char) (acc : List (List Char))
    (h1 : c ≠ '$') (h2 : c ≠ ';') :
    decodeLoop (c :: rest) false v acc = none := by
  cases rest with
  | nil => simp [decodeLoop, h1, h2]
  | cons d t => simp [decodeLoop, h1, h2]

theorem decodeLoop_char (c : Char) (rest : List Char) (v : List Char) (acc : List (List Char))
    (h : c ≠ '$') :
    decodeLoop (c :: rest) true v acc = decodeLoop rest true (v ++ [c]) acc := by
  cases rest with
  | nil => simp [decodeLoop, h]
  | cons d t => simp [decodeLoop, h]

theorem decodeLoop_escpair (rest : List Char) (v : List Char) (acc : List (List Char)) :
    decodeLoop ('$' :: '$' :: rest) true v acc = decodeLoop rest true (v ++ ['$']) acc := by
  simp [decodeLoop]

theorem decodeLoop_close (rest : List Char) (v : List Char) (acc : List (List Char))
    (h : rest.head? ≠ some '$') :
    decodeLoop ('$' :: rest) true v acc = decodeLoop rest false [] (acc ++ [v]) := by
  cases rest with
  | nil => simp [decodeLoop]
  | cons d t =>
    have hd : d ≠ '$' := by intro hd; exact h (by simp [hd])
    simp [decodeLoop, hd]

/-- Scanning an escaped element: from inside a value, consuming the escaped
text followed by the closing dollar appends the element (prefixed by any
already accumulated value text) to the completed list, provided the closing
dollar is not followed directly by another dollar. -/
theorem decodeLoop_esc_scan (s : List Char) : ∀ (rest v : List Char) (acc : List (List Char)),
    rest.head? ≠ some '$' →
    decodeLoop (escDollar s ++ '$' :: rest) true v acc
      = decodeLoop rest false [] (acc ++ [v ++ s]) := by
  induction s with
  | nil =>
    intro rest v acc hrest
    simpa using decodeLoop_close rest v acc hrest
  | cons c t ih =>
    intro rest v acc hrest
    by_cases hc : c = '$'
    · subst hc
      have : escDollar ('$' :: t) ++ '$' :: rest = '$' :: '$' :: (escDollar t ++ '$' :: rest) := by
        simp [escDollar]
      rw [this, decodeLoop_escpair, ih rest (v ++ ['$']) acc hrest]
      simp
    · have : escDollar (c :: t) ++ '$' :: rest = c :: (escDollar t ++ '$' :: rest) := by
        simp [escDollar, hc]
      rw [this, decodeLoop_char _ _ _ _ hc, ih rest (v ++ [c]) acc hrest]
      simp

/-- Scanning escaped text that ends while still inside a value: the loop
returns only the completed values, discarding the partial element. -/
theorem decodeLoop_esc_unterminated (s : List Char) : ∀ (v : List Char) (acc : List (List Char)),
    decodeLoop (escDollar s) true v acc = some acc := by
  induction s with
  | nil => intro v acc; rfl
  | cons c t ih =>
    intro v acc
    by_cases hc : c = '$'
    · subst hc
      have : escDollar ('$' :: t) = '$' :: '$' :: escDollar t := by simp [escDollar]
      rw [this, decodeLoop_escpair, ih]
    · have : escDollar (c :: t) = c :: escDollar t := by simp [escDollar, hc]
      rw [this, decodeLoop_char _ _ _ _ hc, ih]

/-! ### The companion string layout -/

/-- Recursive characterization of the companion string produced by
`encode_list` for a multi-value field: each escaped element wrapped in
dollar delimiters, with a semicolon between consecutive elements. -/
def companionList : List (List Char) → List Char
  | [] => []
  | [s] => ['$'] ++ escDollar s ++ ['$']
  | s :: t => ['$'] ++ escDollar s ++ ['$'] ++ [';'] ++ companionList t

theorem intercalate_cons₂ {α : Type} (sep a : List α) (l : List (List α)) (h : l ≠ []) :
    List.intercalate sep (a :: l) = a ++ sep ++ List.intercalate sep l := by
  cases l with
  | nil => exact absurd rfl h
  | cons b t => simp [List.intercalate, List.intersperse]

theorem intercalate_single {α : Type} (sep a : List α) :
    List.intercalate sep [a] = a := by
  simp [List.intercalate, List.intersperse]

/-- The companion built by `encode_list` (dollar, escaped elements joined
by the three-character dollar-semicolon-dollar separator, dollar) equals
the recursive `companionList` form. -/
theorem companion_eq (strs : List (List Char)) (h : strs ≠ []) :
    ['$'] ++ List.intercalate (toChars "$;$") (strs.map escDollar) ++ ['$']
      = companionList strs := by
  induction strs with
  | nil => exact absurd rfl h
  | cons s t ih =>
    cases t with
    | nil => simp [companionList, intercalate_single]
    | cons u t2 =>
      have hne : (u :: t2).map escDollar ≠ [] := by simp
      rw [List.map_cons, intercalate_cons₂ _ _ _ hne]
      rw [companionList]
      rw [← ih (List.cons_ne_nil u t2)]
      simp [toChars]
      exact fun h => List.noConfusion h

theorem companionList_ne_nil (l : List (List Char)) (h : l ≠ []) : companionList l ≠ [] := by
  cases l with
  | nil => exact absurd rfl h
  | cons s t => cases t <;> simp [companionList]

/-- Decoding a companion layout followed by residual input: all elements are
appended to the accumulator and scanning continues on the residual, provided
the residual does not begin with a dollar. -/
theorem decodeLoop_companion (l : List (List Char)) :
    ∀ (rest : List Char) (acc : List (List Char)), l ≠ [] → rest.head? ≠ some '$' →
    decodeLoop (companionList l ++ rest) false [] acc = decodeLoop rest false [] (acc ++ l) := by
  induction l with
  | nil => intro rest acc h _; exact absurd rfl h
  | cons s t ih =>
    intro rest acc _ hrest
    cases t with
    | nil =>
      have : companionList [s] ++ rest = '$' :: (escDollar s ++ '$' :: rest) := by
        simp [companionList]
      rw [this, decodeLoop_openStep, decodeLoop_esc_scan s rest [] acc hrest]
      simp
    | cons u t2 =>
      have hsplit : companionList (s :: u :: t2) ++ rest
          = '$' :: (escDollar s ++ '$' :: (';' :: (companionList (u :: t2) ++ rest))) := by
        simp [companionList]
      rw [hsplit, decodeLoop_openStep,
        decodeLoop_esc_scan s (';' :: (companionList (u :: t2) ++ rest)) [] acc (by simp),
        decodeLoop_sep, ih rest (acc ++ [[] ++ s]) (by simp) hrest]
      simp

/-! ### The companion grammar as the specification words it -/

/-- Written from the specification text, for comparison with the encoder:
one element of the multi-value companion is the element wrapped in a `$`
delimiter with each literal `$` doubled. -/
def specWrap (s : List Char) : List Char := ['$'] ++ escDollar s ++ ['$']

/-- Written from the specification text: the companion string is the
wrapped elements separated by a `;` placed between the closing `$` of one
element and the opening `$` of the next. -/
def specCompanion (l : List PyVal) : List Char :=
  List.intercalate [';'] (l.map (fun v => specWrap (to_string v)))

theorem companionList_eq_spec (strs : List (List Char)) (h : strs ≠ []) :
    companionList strs = List.intercalate [';'] (strs.map specWrap) := by
  induction strs with
  | nil => exact absurd rfl h
  | cons s t ih =>
    cases t with
    | nil => simp [companionList, specWrap, intercalate_single]
    | cons u t2 =>
      have hne : (u :: t2).map specWrap ≠ [] := by simp
      rw [List.map_cons, intercalate_cons₂ _ _ _ hne, ← ih (List.cons_ne_nil u t2)]
      simp [companionList, specWrap]

/-- C1: for a sequence of length greater than one, the companion produced by
`_encode_list` is exactly the specification grammar: each element wrapped in
`$` delimiters with literal `$` doubled, and `;` between consecutive wrapped
elements; for a singleton the companion is absent and the base column is the
scalar; for an empty sequence both columns are absent. -/
theorem encode_list_follows_grammar (l : List PyVal) :
    (1 < l.length → (encode_list l).2 = some (specCompanion l))
    ∧ (∀ v, l = [v] → encode_list l = (some (to_string v), none))
    ∧ (l = [] → encode_list l = (none, none)) := by
  refine ⟨?_, ?_, ?_⟩
  · intro h
    cases l with
    | nil => simp at h
    | cons a t1 =>
      cases t1 with
      | nil => simp at h
      | cons b t =>
        have henc : (encode_list (a :: b :: t)).2
            = some (['$'] ++ List.intercalate (toChars "$;$")
                (((a :: b :: t).map to_string).map escDollar) ++ ['$']) := rfl
        rw [henc, companion_eq _ (by simp), companionList_eq_spec _ (by simp)]
        simp [specCompanion, List.map_map, Function.comp_def]
  · intro v hv; subst hv; rfl
  · intro hv; subst hv; rfl

/-- Witness for C1 at the concrete input of the claim: the two-element list
`a`, `b$c` is multi-value and its companion follows the grammar. -/
theorem encode_list_follows_grammar_witness :
    1 < ([PyVal.pystr (toChars "a"), PyVal.pystr (toChars "b$c")]).length
    ∧ (encode_list [PyVal.pystr (toChars "a"), PyVal.pystr (toChars "b$c")]).2
        = some (specCompanion [PyVal.pystr (toChars "a"), PyVal.pystr (toChars "b$c")]) :=
  ⟨by decide, (encode_list_follows_grammar _).1 (by decide)⟩

/-- C2: decoding the companion produced by encoding a list of at least two
newline-free strings returns exactly the original list. -/
theorem encode_then_decode_roundtrip (l : List (List Char)) (h2 : 2 ≤ l.length)
    (hnl : ∀ s ∈ l, '\n' ∉ s) :
    ((encode_list (l.map PyVal.pystr)).2.bind decodeList) = some l := by
  cases l with
  | nil => simp at h2
  | cons a t1 =>
    cases t1 with
    | nil => simp at h2
    | cons b t =>
      have hmap : ((a :: b :: t).map PyVal.pystr).map to_string = a :: b :: t := by
        simp [to_string, List.map_map, Function.comp_def, List.map_id]
      have henc : (encode_list ((a :: b :: t).map PyVal.pystr)).2
          = some (['$'] ++ List.intercalate (toChars "$;$")
              ((((a :: b :: t).map PyVal.pystr).map to_string).map escDollar) ++ ['$']) := rfl
      rw [henc, hmap, companion_eq _ (by simp)]
      show decodeList (companionList (a :: b :: t)) = some (a :: b :: t)
      have hne := companionList_ne_nil (a :: b :: t) (by simp)
      rw [decodeList, if_neg hne]
      have hrun := decodeLoop_companion (a :: b :: t) [] [] (by simp) (by simp)
      simpa using hrun

/-- Witness for C2 at the concrete input of the claim: the list
`a`, `b$c`, `c;d` round-trips through the companion encoding. -/
theorem encode_then_decode_roundtrip_witness :
    (2 ≤ ([toChars "a", toChars "b$c", toChars "c;d"]).length
      ∧ ∀ s ∈ [toChars "a", toChars "b$c", toChars "c;d"], '\n' ∉ s)
    ∧ ((encode_list ([toChars "a", toChars "b$c", toChars "c;d"].map PyVal.pystr)).2.bind
        decodeList) = some [toChars "a", toChars "b$c", toChars "c;d"] :=
  ⟨⟨by decide, by decide⟩, encode_then_decode_roundtrip _ (by decide) (by decide)⟩

/-- C7 counterexample: the companion string consisting of a complete
element `a` followed by an unterminated element `b` is malformed in the
sense of the claim, yet `_decode_list` returns the partial list of
completed elements, not the absent value the claim requires. -/
theorem decode_unterminated_counterexample :
    decodeList (toChars "$a$;$b") = some [toChars "a"]
    ∧ decodeList (toChars "$a$;$b") ≠ none := by
  constructor
  · decide
  · decide

/-- C7 amended: a companion whose text ends inside an unterminated
`$`-delimited element decodes to the list of completed elements with the
partial element discarded, not to the absent value; the absent value is
produced when a character outside any `$`-delimited element is neither `$`
nor `;` (and for the empty companion). -/
theorem decode_malformed_policy :
    (∀ (elems : List (List Char)) (tail : List Char), elems ≠ [] →
      decodeList (companionList elems ++ ';' :: '$' :: escDollar tail) = some elems)
    ∧ ∀ (c : Char) (rest : List Char), c ≠ '$' → c ≠ ';' → decodeList (c :: rest) = none := by
  constructor
  · intro elems tail helems
    rw [decodeList, if_neg (by simp)]
    rw [decodeLoop_companion elems (';' :: '$' :: escDollar tail) [] helems (by simp),
      decodeLoop_sep, decodeLoop_openStep, decodeLoop_esc_unterminated]
    simp
  · intro c rest h1 h2
    rw [decodeList, if_neg (by simp), decodeLoop_stray c rest [] [] h1 h2]

/-- Witness for the C7 amended theorem: with completed element `a` and
unterminated element `b` the decode yields the singleton list `a`. -/
theorem decode_malformed_policy_witness :
    (([toChars "a"] : List (List Char)) ≠ []
      ∧ decodeList (companionList [toChars "a"] ++ ';' :: '$' :: escDollar (toChars "b"))
          = some [toChars "a"])
    ∧ ('x' ≠ '$' ∧ 'x' ≠ ';' ∧ decodeList ('x' :: toChars "rest") = none) :=
  ⟨⟨by decide, decode_malformed_policy.1 [toChars "a"] (toChars "b") (by decide)⟩,
    by decide, by decide, decode_malformed_policy.2 'x' (toChars "rest") (by decide) (by decide)⟩

/-! ## Frame codec
Source: `SearchCommand._read_chunk` and `SearchCommand._write_chunk` in
src/splunklib/searchcommands/search_command.py. Streams are embedded as
`List Char` traces; `f.read(n)` returns at most `n` characters, and
`f.readline()` returns up to and including the first newline. -/

/-- Embeds the Python format string `chunked 1.0,%d,%d\n` used by
`SearchCommand._write_chunk`. -/
def headerLine (metaLen bodyLen : Nat) : List Char :=
  toChars "chunked 1.0," ++ (toString metaLen).data ++ [','] ++ (toString bodyLen).data ++ ['\n']

/-- Embeds Python `f.readline()`: the pair of the line read (up to and
including the first newline, or the whole remainder) and the rest of the
stream. -/
def readline : List Char → List Char × List Char
  | [] => ([], [])
  | c :: rest =>
    if c = '\n' then ([c], rest)
    else
      let p := readline rest
      (c :: p.1, p.2)

/-- ASCII whitespace as matched by the regex class backslash-s. -/
def isSpace (c : Char) : Bool :=
  c = ' ' || c = '\t' || c = '\n' || c = '\r' || c = '\x0b' || c = '\x0c'

def isDigit (c : Char) : Bool := '0' ≤ c && c ≤ '9'

/-- Decimal value of a digit string, as Python `int` computes it for the
digit-only captures of the header pattern. -/
def digitsToNat (ds : List Char) : Nat :=
  ds.foldl (fun n c => 10 * n + (c.toNat - '0'.toNat)) 0

/-- Consume an exact literal prefix, returning the remainder. -/
def dropLit : List Char → List Char → Option (List Char)
  | [], s => some s
  | _ :: _, [] => none
  | c :: t, d :: s => if c = d then dropLit t s else none

/-- Embeds the header regular expression of `SearchCommand._read_chunk`:
literal `chunked`, one or more whitespace, `1`, any character (the
unescaped dot of the pattern, anything but newline), `0`, then the two
digit-string captures separated by commas with optional surrounding
whitespace, then a newline. All character classes at choice points are
disjoint, so the greedy scan below is equivalent to the backtracking
regex engine; the final whitespace run before the newline cannot itself
contain a newline because `readline` yields at most one, terminal,
newline. Both captures are digit strings, so the subsequent `int`
conversions in the source always succeed and are non-negative. -/
def matchHeader (line : List Char) : Option (Nat × Nat) :=
  match dropLit (toChars "chunked") line with
  | none => none
  | some s1 =>
    let ws1 := s1.takeWhile isSpace
    let s2 := s1.dropWhile isSpace
    if ws1 = [] then none
    else
      match s2 with
      | a :: dot :: z :: s3 =>
        if a = '1' && z = '0' && dot ≠ '\n' then
          match s3.dropWhile isSpace with
          | ',' :: s5 =>
            let s6 := s5.dropWhile isSpace
            let d1 := s6.takeWhile isDigit
            let s7 := s6.dropWhile isDigit
            if d1 = [] then none
            else
              match s7.dropWhile isSpace with
              | ',' :: s8 =>
                let s9 := s8.dropWhile isSpace
                let d2 := s9.takeWhile isDigit
                let s10 := s9.dropWhile isDigit
                if d2 = [] then none
                else
                  match s10.dropWhile (fun c => isSpace c && c ≠ '\n') with
                  | '\n' :: _ => some (digitsToNat d1, digitsToNat d2)
                  | _ => none
              | _ => none
          | _ => none
        else none
      | _ => none

/-! ## Metadata codec
`SearchCommand._read_chunk` parses the metadata segment with `json.loads`
and `SearchCommand._write_chunk` serializes it with `json.dumps`. -/

/-- JSON values as Python `json` produces them. A numeric literal with a
fraction or exponent becomes a float and is represented here by its
literal text (`jfloat`), an integral literal becomes an integer (`jint`):
the claims concern only this int/float distinction, never float
arithmetic. `jobj` keeps its members in the order they are scanned from
the serialized bytes; the actual `json.loads` call in `_read_chunk` is
made without `object_pairs_hook` and stores the members in a Python 2
`dict`, whose iteration order is implementation-defined and does not
preserve this scan order — that divergence is the subject of claim C6. -/
inductive JValue where
  | jnull
  | jbool (b : Bool)
  | jint (n : Int)
  | jfloat (lit : List Char)
  | jstr (s : List Char)
  | jarr (elems : List JValue)
  | jobj (members : List (List Char × JValue))
deriving Repr

/-- JSON whitespace skipped by the decoder. -/
def jsonWS (c : Char) : Bool := c = ' ' || c = '\t' || c = '\n' || c = '\r'

/-- Value of one hexadecimal digit of a unicode escape, written over the
raw character codes (48-57 digits, 97-102 lowercase, 65-70 uppercase). -/
def hexDigitVal (c : Char) : Option Nat :=
  let n := c.toNat
  if 48 ≤ n && n ≤ 57 then some (n - 48)
  else if 97 ≤ n && n ≤ 102 then some (n - 87)
  else if 65 ≤ n && n ≤ 70 then some (n - 55)
  else none

/-- String body parser (after the opening quote): strict mode, so raw
control characters are rejected; recognized escapes are the JSON ones. -/
def parseStringRest : Nat → List Char → List Char → Option (List Char × List Char)
  | 0, _, _ => none
  | _ + 1, [], _ => none
  | fuel + 1, c :: rest, acc =>
    if c = '\"' then some (acc, rest)
    else if c = '\\' then
      match rest with
      | [] => none
      | e :: rest2 =>
        if e = '\"' then parseStringRest fuel rest2 (acc ++ ['\"'])
        else if e = '\\' then parseStringRest fuel rest2 (acc ++ ['\\'])
        else if e = '/' then parseStringRest fuel rest2 (acc ++ ['/'])
        else if e = 'b' then parseStringRest fuel rest2 (acc ++ ['\x08'])
        else if e = 'f' then parseStringRest fuel rest2 (acc ++ ['\x0c'])
        else if e = 'n' then parseStringRest fuel rest2 (acc ++ ['\n'])
        else if e = 'r' then parseStringRest fuel rest2 (acc ++ ['\r'])
        else if e = 't' then parseStringRest fuel rest2 (acc ++ ['\t'])
        else if e = 'u' then
          match rest2 with
          | h1 :: h2 :: h3 :: h4 :: rest3 =>
            match hexDigitVal h1, hexDigitVal h2, hexDigitVal h3, hexDigitVal h4 with
            | some a, some b, some cc, some d =>
              let n := ((a * 16 + b) * 16 + cc) * 16 + d
              if n.isValidChar then parseStringRest fuel rest3 (acc ++ [Char.ofNat n])
              else none
            | _, _, _, _ => none
          | _ => none
        else none
    else if c.toNat < 32 then none
    else parseStringRest fuel rest (acc ++ [c])

/-- Number scanner of the decoder: optional minus, an integer part that is
`0` or starts with a nonzero digit, an optional fraction, an optional
exponent. A literal with a fraction or exponent decodes as a float
(represented by its literal text), otherwise as an integer. -/
def parseNumber (s : List Char) : Option (JValue × List Char) :=
  let sign : List Char := match s with | '-' :: _ => ['-'] | _ => []
  let s1 := s.drop sign.length
  let ipart : Option (List Char × List Char) :=
    match s1 with
    | '0' :: t => some (['0'], t)
    | c :: _ =>
      if isDigit c then
        some (s1.takeWhile isDigit, s1.dropWhile isDigit)
      else none
    | [] => none
  match ipart with
  | none => none
  | some (ds, s2) =>
    let fpart : Option (List Char × List Char) :=
      match s2 with
      | '.' :: t =>
        let fd := t.takeWhile isDigit
        if fd = [] then none else some ('.' :: fd, t.dropWhile isDigit)
      | _ => none
    let s3 := match fpart with | some (_, r) => r | none => s2
    let epart : Option (List Char × List Char) :=
      match s3 with
      | e :: t =>
        if e = 'e' || e = 'E' then
          let esign : List Char := match t with | '+' :: _ => ['+'] | '-' :: _ => ['-'] | _ => []
          let t2 := t.drop esign.length
          let ed := t2.takeWhile isDigit
          if ed = [] then none else some (e :: esign ++ ed, t2.dropWhile isDigit)
        else none
      | [] => none
    let s4 := match epart with | some (_, r) => r | none => s3
    match fpart, epart with
    | none, none => some (.jint (if sign = [] then (digitsToNat ds : Int) else -(digitsToNat ds : Int)), s2)
    | _, _ =>
      let flit := sign ++ ds ++ (match fpart with | some (f, _) => f | none => [])
        ++ (match epart with | some (e, _) => e | none => [])
      some (.jfloat flit, s4)

mutual

/-- Value parser of the decoder, fuel-indexed. Leading JSON whitespace is
skipped (the callers of the Python scanner always skip it before scanning a
value, so this is observationally identical). -/
def parseJValue : Nat → List Char → Option (JValue × List Char)
  | 0, _ => none
  | fuel + 1, s =>
    match s.dropWhile jsonWS with
    | '\"' :: rest => (parseStringRest fuel rest []).map (fun p => (.jstr p.1, p.2))
    | '\x7b' :: rest =>
      (match rest.dropWhile jsonWS with
       | '\x7d' :: r => some (.jobj [], r)
       | _ => (parseMembers fuel (rest.dropWhile jsonWS) []).map (fun p => (.jobj p.1, p.2)))
    | '[' :: rest =>
      (match rest.dropWhile jsonWS with
       | ']' :: r => some (.jarr [], r)
       | _ => (parseElements fuel (rest.dropWhile jsonWS) []).map (fun p => (.jarr p.1, p.2)))
    | 't' :: 'r' :: 'u' :: 'e' :: rest => some (.jbool true, rest)
    | 'f' :: 'a' :: 'l' :: 's' :: 'e' :: rest => some (.jbool false, rest)
    | 'n' :: 'u' :: 'l' :: 'l' :: rest => some (.jnull, rest)
    | s1 => parseNumber s1

/-- Object member list parser. Members are accumulated in scan order with
the last value winning for a duplicate key, matching assignment into the
dict of the decoder (see `JValue` on the order caveat). -/
def parseMembers : Nat → List Char → List (List Char × JValue) →
    Option (List (List Char × JValue) × List Char)
  | 0, _, _ => none
  | fuel + 1, s, acc =>
    match s.dropWhile jsonWS with
    | '\"' :: rest =>
      match parseStringRest fuel rest [] with
      | none => none
      | some (key, s2) =>
        match s2.dropWhile jsonWS with
        | ':' :: s3 =>
          match parseJValue fuel s3 with
          | none => none
          | some (v, s4) =>
            let acc2 := if (acc.find? (fun kv => kv.1 = key)).isSome
              then acc.map (fun kv => if kv.1 = key then (key, v) else kv)
              else acc ++ [(key, v)]
            match s4.dropWhile jsonWS with
            | ',' :: s5 => parseMembers fuel s5 acc2
            | '\x7d' :: s5 => some (acc2, s5)
            | _ => none
        | _ => none
    | _ => none

/-- Array element list parser. -/
def parseElements : Nat → List Char → List JValue → Option (List JValue × List Char)
  | 0, _, _ => none
  | fuel + 1, s, acc =>
    match parseJValue fuel s with
    | none => none
    | some (v, s2) =>
      match s2.dropWhile jsonWS with
      | ',' :: s3 => parseElements fuel s3 (acc ++ [v])
      | ']' :: s3 => some (acc ++ [v], s3)
      | _ => none

end

/-- Embeds `json.loads`: parse one value and require only whitespace to
remain; the empty string (and any unparsable text) yields a raised
`ValueError`, embedded as `none`. -/
def jsonLoads (s : List Char) : Option JValue :=
  match parseJValue (s.length + 1) s with
  | some (v, rest) => if rest.dropWhile jsonWS = [] then some v else none
  | none => none

def toHexDigit (n : Nat) : Char :=
  if n < 10 then Char.ofNat ('0'.toNat + n) else Char.ofNat ('a'.toNat + n - 10)

def toHex4 (n : Nat) : List Char :=
  [toHexDigit (n / 4096 % 16), toHexDigit (n / 256 % 16), toHexDigit (n / 16 % 16),
   toHexDigit (n % 16)]

/-- One character of `json.dumps` output with the default `ensure_ascii`:
quote, backslash and characters outside the printable ASCII range are
escaped. -/
def dumpChar (c : Char) : List Char :=
  if c = '\"' then ['\\', '\"']
  else if c = '\\' then ['\\', '\\']
  else if c = '\n' then ['\\', 'n']
  else if c = '\r' then ['\\', 'r']
  else if c = '\t' then ['\\', 't']
  else if c = '\x08' then ['\\', 'b']
  else if c = '\x0c' then ['\\', 'f']
  else if c.toNat < 32 || c.toNat > 126 then
    if c.toNat ≥ 65536 then
      let v := c.toNat - 65536
      ['\\', 'u'] ++ toHex4 (55296 + v / 1024) ++ ['\\', 'u'] ++ toHex4 (56320 + v % 1024)
    else ['\\', 'u'] ++ toHex4 c.toNat
  else [c]

def dumpString (s : List Char) : List Char := ['\"'] ++ (s.map dumpChar).flatten ++ ['\"']

mutual

/-- Embeds `json.dumps` with the default separators (comma-space and
colon-space). A float value is emitted as its stored literal; the code
under verification never dumps a float, so this choice is unobservable in
the theorems below. -/
def jsonDumps : JValue → List Char
  | .jnull => toChars "null"
  | .jbool true => toChars "true"
  | .jbool false => toChars "false"
  | .jint n => (toString n).data
  | .jfloat lit => lit
  | .jstr s => dumpString s
  | .jarr es => ['['] ++ dumpsElements es ++ [']']
  | .jobj ms => ['\x7b'] ++ dumpsMembers ms ++ ['\x7d']

def dumpsElements : List JValue → List Char
  | [] => []
  | [v] => jsonDumps v
  | v :: rest => jsonDumps v ++ toChars ", " ++ dumpsElements rest

def dumpsMembers : List (List Char × JValue) → List Char
  | [] => []
  | [(k, v)] => dumpString k ++ toChars ": " ++ jsonDumps v
  | (k, v) :: rest => dumpString k ++ toChars ": " ++ jsonDumps v ++ toChars ", " ++ dumpsMembers rest

end

/-- Python exception kinds raised by the embedded fragments. -/
inductive PyErr where
  | typeError
deriving DecidableEq, Repr

/-- Embeds `SearchCommand._write_chunk`. The metadata argument is the
item list of the metadata dict, or `none` for Python `None`. Following the
source: the buffer stays `None` when the metadata is `None` or an empty
(falsy) dict; the header line is written with the buffer length or `0`;
then `f.write(metadata_buffer)` runs unconditionally, which raises
`TypeError` on a real output file when the buffer is `None` — the error
carries the bytes already written (the header line). On success, the
result is the whole byte trace written and flushed: header, metadata
bytes, body bytes. -/
def writeChunk (metadata : Option (List (List Char × JValue))) (body : List Char) :
    Except (PyErr × List Char) (List Char) :=
  let mbuf : Option (List Char) :=
    match metadata with
    | some kvs => if kvs.isEmpty then none else some (jsonDumps (.jobj kvs))
    | none => none
  let header := headerLine (match mbuf with | some b => b.length | none => 0) body.length
  match mbuf with
  | some b => .ok (header ++ b ++ body)
  | none => .error (.typeError, header)

/-- Embeds `SearchCommand._read_chunk`. Faithful to the source, which
returns `None` (after printing a diagnostic to stderr) for every failure:
an empty read (EOF), a header that the pattern does not match, and
metadata that `json.loads` rejects all produce `none`; the declared byte
counts are used with `f.read`, which returns at most that many
characters, so a truncated body is returned short without any error. -/
def readChunk (input : List Char) : Option (JValue × List Char) :=
  if (readline input).1 = [] then none
  else
    match matchHeader (readline input).1 with
    | none => none
    | some md =>
      match jsonLoads ((readline input).2.take md.1) with
      | none => none
      | some m => some (m, ((readline input).2.drop md.1).take md.2)

/-- C4 counterexample: `_read_chunk` does not produce an error result
distinct from the clean-EOF result. A header line that fails to parse
yields exactly the same `none` as end-of-stream, and a stream whose body
holds fewer than the declared number of bytes (here 3 of 5) is not
detected at all: the chunk is returned with the short body. -/
theorem read_chunk_error_counterexample :
    readChunk (toChars "bogus\n") = none
    ∧ readChunk [] = none
    ∧ readChunk (toChars "chunked 1.0,2,5\n\x7b\x7dabc") = some (.jobj [], toChars "abc") :=
  ⟨rfl, rfl, rfl⟩

/-- C4 amended: `_read_chunk` returns `none` on EOF before any header
bytes, and it returns the very same `none` — not a distinct error value —
when the header line does not match the pattern or when the metadata
segment fails to parse as JSON; the header captures are digit strings, so
the length conversions always yield non-negative integers; and a stream
with fewer than the declared number of body bytes is not treated as a
failure: the chunk is returned with the short body. -/
theorem read_chunk_failure_behavior :
    readChunk [] = none
    ∧ (∀ input : List Char, matchHeader (readline input).1 = none → readChunk input = none)
    ∧ (∀ (input : List Char) (mlen blen : Nat),
        matchHeader (readline input).1 = some (mlen, blen) →
        jsonLoads ((readline input).2.take mlen) = none → readChunk input = none)
    ∧ readChunk (toChars "chunked 1.0,2,5\n\x7b\x7dabc") = some (.jobj [], toChars "abc") := by
  refine ⟨rfl, ?_, ?_, rfl⟩
  · intro input h
    by_cases hp : (readline input).1 = []
    · simp [readChunk, hp]
    · simp [readChunk, hp, h]
  · intro input mlen blen hm hj
    by_cases hp : (readline input).1 = []
    · rw [hp] at hm
      exact absurd hm (by simp [matchHeader, dropLit, toChars])
    · simp [readChunk, hp, hm, hj]

/-- Witness for the C4 amended theorem at the concrete malformed header of
the counterexample. -/
theorem read_chunk_failure_behavior_witness :
    matchHeader (readline (toChars "bogus\n")).1 = none
    ∧ readChunk (toChars "bogus\n") = none :=
  ⟨rfl, read_chunk_failure_behavior.2.1 (toChars "bogus\n") rfl⟩

/-- C5: evaluation of `_write_chunk` at an absent metadata value. The
source computes the header length defensively (`0` when the buffer is
`None`/empty) but then writes the `None` buffer unconditionally, raising
`TypeError` after only the header line has reached the stream — the body
is never written, the claimed `chunked 1.0,0,3` header plus body exchange
never completes. The third conjunct records the true half of the claim:
with a non-empty metadata dict the two declared lengths are the actual
byte counts of the serialized metadata and of the body. -/
theorem write_chunk_absent_metadata_raises :
    writeChunk none (toChars "abc") = .error (.typeError, headerLine 0 3)
    ∧ writeChunk (some []) (toChars "abc") = .error (.typeError, headerLine 0 3)
    ∧ (∀ (kvs : List (List Char × JValue)) (body : List Char), kvs ≠ [] →
        writeChunk (some kvs) body
          = .ok (headerLine (jsonDumps (.jobj kvs)).length body.length
              ++ jsonDumps (.jobj kvs) ++ body)) := by
  refine ⟨rfl, rfl, ?_⟩
  intro kvs body h
  cases kvs with
  | nil => exact absurd rfl h
  | cons k t => rfl

/-- Witness for the universally quantified conjunct of the C5 theorem. -/
theorem write_chunk_absent_metadata_raises_witness :
    ([(toChars "finished", JValue.jbool true)] : List (List Char × JValue)) ≠ []
    ∧ writeChunk (some [(toChars "finished", JValue.jbool true)]) (toChars "x")
        = .ok (headerLine (jsonDumps (.jobj [(toChars "finished", .jbool true)])).length 1
            ++ jsonDumps (.jobj [(toChars "finished", .jbool true)]) ++ toChars "x") :=
  ⟨List.cons_ne_nil _ _,
    write_chunk_absent_metadata_raises.2.2 [(toChars "finished", .jbool true)] (toChars "x")
      (List.cons_ne_nil _ _)⟩

/-- C6: the decoder distinguishes an integral literal from a fractional
one — `5` decodes to an integer and `5.0` to a float — and the serialized
bytes of the failing input determine the member order b, a; the
surrounding `_read_chunk` stores these members through plain `json.loads`
into a Python 2 `dict`, which does not retain that order (see `JValue`). -/
theorem metadata_decode_numbers :
    jsonLoads (toChars "5") = some (.jint 5)
    ∧ jsonLoads (toChars "5.0") = some (.jfloat (toChars "5.0"))
    ∧ jsonLoads (toChars "\x7b\"b\": 1, \"a\": 2\x7d")
        = some (.jobj [(toChars "b", .jint 1), (toChars "a", .jint 2)]) :=
  ⟨rfl, rfl, rfl⟩

/-! ## Handshake (getInfo) token processing
Source: `SearchCommand.process`, lines 314-363 of
src/splunklib/searchcommands/search_command.py, together with
`SearchCommand._write_message`. -/

/-- Messages buffered through `SearchCommand._write_message`. The format
strings are fixed in the source, so the message content is embedded
structurally; `unrecognizedOption` carries the split token list that the
source interpolates into its text, which therefore references the bad
option name. -/
inductive HMsg where
  | unrecognizedOption (parts : List (List Char))
  | illegalValue (name : List Char)
  | missingOne (name : List Char)
  | missingMany (names : List (List Char))
deriving DecidableEq, Repr

/-- Modelled from the spec: the options-validation subsystem (the
`Option.View` used by `SearchCommand.process`, implemented in
splunklib/searchcommands/decorators.py which is not under src/) converts
name=value tokens into typed values. Looking up an undeclared name
raises KeyError; assigning a value that fails validation raises
ValueError; `get_missing` lists the required options never supplied. -/
structure OptSpec where
  name : List Char
  validates : List Char → Bool
  required : Bool

/-- Embeds Python `arg.split('=', 1)`: `none` when the token holds no
equals sign (a bare field name), otherwise the text before the first
equals sign and everything after it. -/
def splitFirstEq : List Char → Option (List Char × List Char)
  | [] => none
  | c :: t =>
    if c = '=' then some ([], t)
    else (splitFirstEq t).map (fun p => (c :: p.1, p.2))

/-- OrderedDict assignment: replace in place when the key exists,
otherwise append. -/
def odInsert (d : List (List Char × HMsg)) (k : List Char) (v : HMsg) :
    List (List Char × HMsg) :=
  if (d.find? (fun kv => kv.1 = k)).isSome then
    d.map (fun kv => if kv.1 = k then (k, v) else kv)
  else d ++ [(k, v)]

/-- State threaded through the token loop of `SearchCommand.process`. -/
structure HState where
  fieldnames : List (List Char)
  provided : List (List Char)
  inspector : List (List Char × HMsg)
  messageCount : Nat
deriving DecidableEq, Repr

/-- Embeds `SearchCommand._write_message`: the message is stored in the
inspector under the key `message.<count>.<type>`. Faithful to the source,
`_message_count` is never incremented by this method (nor anywhere else),
so every message lands under the same count. -/
def msgKey (n : Nat) (ty : List Char) : List Char :=
  toChars "message." ++ (toString n).data ++ ['.'] ++ ty

def writeMessage (st : HState) (ty : List Char) (m : HMsg) : HState :=
  { st with inspector := odInsert st.inspector (msgKey st.messageCount ty) m }

/-- Embeds one iteration of the `args` loop in `SearchCommand.process`:
a bare token extends the field names; for a `name=value` token an unknown
name buffers an error and continues, a failing validation buffers an
error and continues, and a valid assignment records the option as
supplied. -/
def processToken (opts : List OptSpec) (st : HState) (arg : List Char) : HState :=
  match splitFirstEq arg with
  | none => { st with fieldnames := st.fieldnames ++ [arg] }
  | some (name, value) =>
    match opts.find? (fun o => o.name = name) with
    | none => writeMessage st (toChars "ERROR") (.unrecognizedOption [name, value])
    | some o =>
      if o.validates value then { st with provided := st.provided ++ [name] }
      else writeMessage st (toChars "ERROR") (.illegalValue name)

def getMissing (opts : List OptSpec) (provided : List (List Char)) : List (List Char) :=
  (opts.filter (fun o => o.required && !(provided.contains o.name))).map OptSpec.name

/-- Outcome of the getInfo phase of `SearchCommand.process`: the parsed
field names, the buffered inspector messages, the final message count,
whether the process calls `exit(1)` before configuration, and whether the
configuration chunk is written (the source reaches `_write_chunk` exactly
when it does not exit). -/
structure HandshakeResult where
  fieldnames : List (List Char)
  inspector : List (List Char × HMsg)
  messageCount : Nat
  exitsBeforeConfig : Bool
  configChunkWritten : Bool
deriving DecidableEq, Repr

/-- Embeds the getInfo token processing of `SearchCommand.process`: every
token of `args` is processed before any decision; afterwards missing
required options are reported (one message for a single missing option, a
combined message otherwise); the source then calls `exit(1)` exactly when
`self._message_count > 0` and otherwise writes the configuration chunk
and proceeds to `_execute`. -/
def handshake (opts : List OptSpec) (args : List (List Char)) : HandshakeResult :=
  let st1 := args.foldl (processToken opts) ⟨[], [], [], 0⟩
  let st2 :=
    match getMissing opts st1.provided with
    | [] => st1
    | [m] => writeMessage st1 (toChars "ERROR") (.missingOne m)
    | ms => writeMessage st1 (toChars "ERROR") (.missingMany ms)
  let exits := decide (0 < st2.messageCount)
  ⟨st2.fieldnames, st2.inspector, st2.messageCount, exits, !exits⟩

/-- The scenario of claim C3: a command declaring only the option `opt1`
(no required options) handshaking on args `field1`, `opt1=5`, `badopt=1`. -/
def badoptScenario : HandshakeResult :=
  handshake [⟨toChars "opt1", fun _ => true, false⟩]
    [toChars "field1", toChars "opt1=5", toChars "badopt=1"]

/-- C3: evaluation of the handshake at the input of the claim. All tokens are
processed and the unknown option is buffered as one error message
referencing `badopt`, with field names `field1` — but because
`_write_message` never increments `_message_count`, the count stays `0`,
the `exit(1)` guard does not fire, and the process writes the
configuration chunk and enters the execution loop instead of terminating
with a non-zero status. -/
theorem handshake_badopt_does_not_exit :
    badoptScenario.fieldnames = [toChars "field1"]
    ∧ badoptScenario.inspector
        = [(toChars "message.0.ERROR", .unrecognizedOption [toChars "badopt", toChars "1"])]
    ∧ badoptScenario.messageCount = 0
    ∧ badoptScenario.exitsBeforeConfig = false
    ∧ badoptScenario.configChunkWritten = true :=
  ⟨rfl, rfl, rfl, rfl, rfl⟩

/-! ## Generating execution loop
Source: `GeneratingCommand._execute` in
src/splunklib/searchcommands/generating_command.py. -/

/-- Result of running the generating loop for a bounded number of
iterations: either an exception escaped the loop (with the output trace
written so far) or the loop was still running when the bound ran out. -/
inductive LoopResult where
  | raised (e : PyErr) (out : List Char)
  | running (out : List Char)
deriving DecidableEq, Repr

/-- Embeds `GeneratingCommand._execute`: a `while True` loop with no
break that, on every iteration, serializes the records yielded by a fresh
`generate()` call into a body (opaque bytes here, the same on every
iteration) and calls `_write_chunk(ofile, None, body)`. It never reads
from the input stream — the embedding takes no input. The fuel argument
bounds how many iterations are inspected. -/
def genExecuteLoop : Nat → List Char → List Char → LoopResult
  | 0, _, out => .running out
  | fuel + 1, body, out =>
    match writeChunk none body with
    | .error (e, w) => .raised e (out ++ w)
    | .ok w => genExecuteLoop fuel body (out ++ w)

/-- C8: the generating execution loop reads no input, but it does not
produce one complete chunk and terminate: already on the first iteration
the `_write_chunk(ofile, None, ...)` call raises `TypeError` after
writing only the header line, whatever body the generator produced and
whatever iteration bound is allowed. -/
theorem generating_execute_first_iteration_raises (fuel : Nat) (body out : List Char) :
    genExecuteLoop (fuel + 1) body out
      = .raised .typeError (out ++ headerLine 0 body.length) := rfl

/-! ## Record Writer
The class `RecordWriter` lives in splunklib/searchcommands/internals.py,
which is not under src/; only its test,
`test_record_writer_with_random_data` in
src/tests/searchcommands/test_internals_v2.py, is. The model below is
written from spec section 4.4 and the assertions of that test. -/

/-- One chunk emitted by the Record Writer: its rows, the inspector state
attached as metadata, and the finished flag. -/
structure RWChunk where
  rows : List (List (List Char × List Char))
  inspector : List (List Char × List Char)
  finishedFlag : Bool
deriving DecidableEq, Repr

/-- Modelled from the spec: the Record Writer state — the fixed row
threshold, the chunks emitted so far, the buffered rows, the fixed column
set captured from the first record since the last flush, the accumulated
inspector state, and the terminal Closed flag. -/
structure RecordWriter where
  maxresultrows : Nat
  chunks : List RWChunk
  buffer : List (List (List Char × List Char))
  fieldnames : Option (List (List Char))
  inspector : List (List Char × List Char)
  finished : Bool
deriving DecidableEq, Repr

/-- The programming-contract violation the spec names UsageError (the
implementation and its test raise it as a RuntimeError): a Record Writer
operation invoked after the terminal flush. -/
inductive WriterErr where
  | usageError
deriving DecidableEq, Repr

/-- Modelled from the spec: `RecordWriter.write_record`. A Closed writer
fails with the usage error; otherwise the first record since the last
flush fixes the column set, the row is buffered, and reaching the row
threshold auto-flushes a partial chunk (finished unset), resetting buffer
and column set while carrying the inspector state forward. -/
def write_record (w : RecordWriter) (r : List (List Char × List Char)) :
    Except WriterErr RecordWriter :=
  if w.finished then .error .usageError
  else
    let w1 := match w.fieldnames with
      | none => { w with fieldnames := some (r.map Prod.fst) }
      | some _ => w
    let w2 := { w1 with buffer := w1.buffer ++ [r] }
    if w2.maxresultrows ≤ w2.buffer.length then
      .ok { w2 with
        chunks := w2.chunks ++ [⟨w2.buffer, [], false⟩],
        buffer := [],
        fieldnames := none }
    else .ok w2

/-- Modelled from the spec: `RecordWriter.flush`. A Closed writer fails
with the usage error; otherwise the buffered rows (possibly none) are
emitted as one chunk carrying the accumulated inspector state, the
buffer, column set and inspector are cleared, and a finished flush moves
the writer to the terminal Closed state. -/
def flush (w : RecordWriter) (finishedArg : Bool) : Except WriterErr RecordWriter :=
  if w.finished then .error .usageError
  else .ok { w with
    chunks := w.chunks ++ [⟨w.buffer, w.inspector, finishedArg⟩],
    buffer := [], fieldnames := none, inspector := [], finished := finishedArg }

/-- C9 (Record Writer modelled from the spec): from any not-yet-Closed
writer, `flush(finished=true)` emits one final chunk and moves the writer
to the Closed state, and from then on every `write_record` and every
`flush` fails immediately with the usage error. A failing call returns
only the error, never a successor state, so it emits no additional chunk
and cannot be silently swallowed into a success path. -/
theorem record_writer_closed_rejects (w : RecordWriter)
    (r : List (List Char × List Char)) (b : Bool) (h : w.finished = false) :
    ∃ w', flush w true = .ok w'
      ∧ w'.finished = true
      ∧ w'.chunks = w.chunks ++ [⟨w.buffer, w.inspector, true⟩]
      ∧ write_record w' r = .error .usageError
      ∧ flush w' b = .error .usageError := by
  refine ⟨{ w with
    chunks := w.chunks ++ [⟨w.buffer, w.inspector, true⟩],
    buffer := [], fieldnames := none, inspector := [], finished := true }, ?_, rfl, rfl, rfl, rfl⟩
  simp [flush, h]

/-- Witness for C9 at a concrete fresh writer with threshold 10. -/
theorem record_writer_closed_rejects_witness :
    (RecordWriter.mk 10 [] [] none [] false).finished = false
    ∧ ∃ w', flush (RecordWriter.mk 10 [] [] none [] false) true = .ok w'
      ∧ w'.finished = true
      ∧ w'.chunks = [] ++ [⟨[], [], true⟩]
      ∧ write_record w' [] = .error .usageError
      ∧ flush w' false = .error .usageError :=
  ⟨rfl, record_writer_closed_rejects (RecordWriter.mk 10 [] [] none [] false) [] false rfl⟩

/-! ## Configuration chunk and the extra newline
Source: `SearchCommand.process`, lines 358-363, and the `_write_chunk`
calls of the execution loops. -/

/-- Embeds lines 358-363 of `SearchCommand.process`: build the
configuration metadata by chaining the configuration items with the
`inspector` entry, write that chunk with an empty body, clear the
inspector, write one extra newline byte, and only then enter `_execute`.
The result is the output trace and the inspector value at entry to the
execution loop. -/
def processConfigPhase (out : List Char) (inspector : List (List Char × JValue))
    (configItems : List (List Char × JValue)) :
    Except (PyErr × List Char) (List Char × List (List Char × JValue)) :=
  match writeChunk (some (configItems ++ [(toChars "inspector", .jobj inspector)])) [] with
  | .error e => .error e
  | .ok w => .ok ((out ++ w) ++ ['\n'], [])

/-- Embeds the output effect of one `_write_chunk` call inside an
execution loop: `StreamingCommand._execute` and
`GeneratingCommand._execute` write chunks to the output stream and
nothing else — in particular no newline after a chunk. -/
def execChunkWrite (out : List Char) (metadata : Option (List (List Char × JValue)))
    (body : List Char) : Except (PyErr × List Char) (List Char) :=
  match writeChunk metadata body with
  | .error e => .error (e.1, out ++ e.2)
  | .ok w => .ok (out ++ w)

/-- C10: immediately after the configuration chunk — whose declared
lengths cover exactly the serialized metadata and the empty body — the
process writes exactly one newline byte not accounted for in any declared
length, and the inspector handed to the execution loop is empty; an
execution-phase chunk write appends exactly the chunk bytes, with no
extra byte after them. -/
theorem process_config_extra_newline (out : List Char)
    (inspector configItems : List (List Char × JValue)) :
    (processConfigPhase out inspector configItems
      = .ok (out
          ++ headerLine
              (jsonDumps (.jobj (configItems ++ [(toChars "inspector", .jobj inspector)]))).length 0
          ++ jsonDumps (.jobj (configItems ++ [(toChars "inspector", .jobj inspector)]))
          ++ ['\n'], []))
    ∧ (∀ (md : List (List Char × JValue)) (body out2 : List Char), md ≠ [] →
        execChunkWrite out2 (some md) body
          = .ok (out2 ++ (headerLine (jsonDumps (.jobj md)).length body.length
              ++ jsonDumps (.jobj md) ++ body))) := by
  constructor
  · have hne : (configItems ++ [(toChars "inspector", JValue.jobj inspector)]).isEmpty = false := by
      cases configItems <;> rfl
    simp [processConfigPhase, writeChunk, hne, List.append_assoc]
  · intro md body out2 h
    cases md with
    | nil => exact absurd rfl h
    | cons k t => rfl

/-- Witness for the universally quantified conjunct of the C10 theorem:
an execution-phase chunk write appends exactly the chunk bytes. -/
theorem process_config_extra_newline_witness :
    execChunkWrite (toChars "o") (some [(toChars "finished", JValue.jbool true)]) (toChars "B")
      = .ok (toChars "o" ++ (headerLine
          (jsonDumps (.jobj [(toChars "finished", .jbool true)])).length (toChars "B").length
          ++ jsonDumps (.jobj [(toChars "finished", .jbool true)]) ++ toChars "B")) :=
  (process_config_extra_newline [] [] []).2 [(toChars "finished", .jbool true)] (toChars "B")
    (toChars "o") (List.cons_ne_nil _ _)

end SplunkSDK
